import Mathlib

/-!
Verification of the `CUtlArray` growable-array container
(src/utils/common/utlarray.h) against its natural-language specification.

The container is embedded shallowly: the logical element sequence
(`m_Size` live, constructed elements at logical indices `[0, m_Size)`) is a
`List α`, the storage policy's allocation count (`m_Memory.NumAllocated()`)
is a `Nat`, and the configured growth increment is a `Nat`.  Machine `int`
indices arriving from the public interface are kept as `Int`.  The byte-level
`memmove`/`memcpy` shifts of the source act on bitwise-relocatable elements
and are reflected as the corresponding list splices; in-place `Construct` /
`Destruct` calls are reflected by the element entering / leaving the list.
`CUtlMemory` itself (utlmemory.h) is not part of the repository snapshot, so
its three entry points used by the array (`Grow`, `EnsureCapacity`, `Purge`)
are modelled from the specification's storage-policy contract; every other
definition is translated directly from utlarray.h.
-/

namespace UtlSpec

/-- State of a `CUtlArray<T>`: `data` holds the live elements at logical
indices `[0, data.length)` (so `m_Size = data.length`), `growSize` is the
configured growth increment of the storage policy, and `numAllocated` is the
policy's current allocation count (`m_Memory.NumAllocated()`). -/
structure CUtlArray (α : Type) where
  data : List α
  growSize : Nat
  numAllocated : Nat
deriving DecidableEq

variable {α : Type}

/-- Embedding of `CUtlArray::Count` (utlarray.h:344): returns `m_Size` as a
C `int`. -/
def Count (a : CUtlArray α) : Int :=
  a.data.length

/-- Embedding of `CUtlArray::IsValidIndex` (utlarray.h:354):
`(i >= 0) && (i < m_Size)`. -/
def IsValidIndex (a : CUtlArray α) (i : Int) : Bool :=
  decide (0 ≤ i) && decide (i < Count a)

/-- Modelled from the spec: `CUtlMemory::Grow` (utlmemory.h is absent from
the repository snapshot).  Per the spec's growth algorithm: when the growth
increment is 0, new capacity is the larger of (current count + requested
additional elements) and (current capacity doubled, minimum 1); otherwise
capacity grows by the smallest multiple of the increment that accommodates
the request.  `req` is the shortfall `m_Size + num - NumAllocated()` passed
at the call site in `GrowVector`, so `cap + req` is (current count +
requested). -/
def memGrow (growSize cap req : Nat) : Nat :=
  if growSize = 0 then max (cap + req) (max (2 * cap) 1)
  else cap + growSize * ((req + growSize - 1) / growSize)

/-- Modelled from the spec: `CUtlMemory::EnsureCapacity` (utlmemory.h is
absent from the repository snapshot): "guarantees allocated capacity ≥ n
without changing size; a pure preallocation hint". -/
def memEnsureCapacity (a : CUtlArray α) (num : Nat) : CUtlArray α :=
  { a with numAllocated := max a.numAllocated num }

/-- Embedding of `CUtlArray::GrowVector` (utlarray.h:374): grows the storage
policy by the shortfall when `m_Size + num > m_Memory.NumAllocated()`.  The
returned `Bool` records whether `m_Memory.Grow` was invoked (the
allocation-observable growth event).  The `m_Size += num` of the source is
realised by the caller constructing the `num` new elements into `data`. -/
def GrowVector (a : CUtlArray α) (num : Nat) : CUtlArray α × Bool :=
  if a.data.length + num > a.numAllocated then
    ({ a with
        numAllocated :=
          memGrow a.growSize a.numAllocated (a.data.length + num - a.numAllocated) },
      true)
  else (a, false)

/-- Embedding of `CUtlArray::EnsureCapacity` (utlarray.h:425): forwards to
`m_Memory.EnsureCapacity(num)`; `ResetDbgInfo` touches only the debug
mirror pointer. -/
def EnsureCapacity (a : CUtlArray α) (num : Nat) : CUtlArray α :=
  memEnsureCapacity a num

/-- Embedding of `CUtlArray::InsertBefore(int, const T&)` (utlarray.h:533)
together with the growth event flag of `GrowVector`: grow by one, shift
elements at indices ≥ `elem` right by one slot (`ShiftElementsRight`,
utlarray.h:447, a bulk byte move of the `m_Size - elem - 1` trailing
elements), then `CopyConstruct` `src` into the vacated slot — jointly the
list splice `insertIdx`. -/
def InsertBeforeEv (a : CUtlArray α) (elem : Int) (src : α) : CUtlArray α × Bool :=
  let g := GrowVector a 1
  ({ g.1 with data := g.1.data.insertIdx elem.toNat src }, g.2)

/-- Embedding of `CUtlArray::InsertBefore(int, const T&)` (utlarray.h:533):
resulting state paired with the returned index (the source ends with
`return elem`). -/
def InsertBefore (a : CUtlArray α) (elem : Int) (src : α) : CUtlArray α × Int :=
  ((InsertBeforeEv a elem src).1, elem)

/-- Embedding of `CUtlArray::AddToTail(const T&)` (utlarray.h:517):
`InsertBefore(m_Size, src)`. -/
def AddToTail (a : CUtlArray α) (src : α) : CUtlArray α × Int :=
  InsertBefore a (Count a) src

/-- Embedding of `CUtlArray::InsertMultipleBefore` (utlarray.h:627): no-op
for `num == 0`; otherwise grow by `num`, shift right by `num`, default-
construct the `num` vacated slots, then, if `pToInsert` is supplied, assign
slot `elem + i` from `pToInsert[i]` for `i < num`. -/
def InsertMultipleBefore [Inhabited α] (a : CUtlArray α) (elem : Int) (num : Nat)
    (toIns : Option (List α)) : CUtlArray α :=
  if num = 0 then a
  else
    let g := (GrowVector a num).1
    let fresh : List α :=
      match toIns with
      | none => List.replicate num default
      | some src => (List.range num).map (fun i => src.getD i default)
    { g with data := g.data.take elem.toNat ++ fresh ++ g.data.drop elem.toNat }

/-- Embedding of `CUtlArray::AddMultipleToTail` (utlarray.h:558):
`InsertMultipleBefore(m_Size, num, pToCopy)`. -/
def AddMultipleToTail [Inhabited α] (a : CUtlArray α) (num : Nat)
    (toIns : Option (List α)) : CUtlArray α :=
  InsertMultipleBefore a (Count a) num toIns

/-- Embedding of `CUtlArray::RemoveAll` (utlarray.h:726): destructs every
live element and sets `m_Size = 0`; the allocation is retained. -/
def RemoveAll (a : CUtlArray α) : CUtlArray α :=
  { a with data := [] }

/-- Embedding of `CUtlArray::SetCount` (utlarray.h:574): `RemoveAll()` then
`AddMultipleToTail(count)`. -/
def SetCount [Inhabited α] (a : CUtlArray α) (count : Nat) : CUtlArray α :=
  AddMultipleToTail (RemoveAll a) count none

/-- Embedding of `CUtlArray::SetSize` (utlarray.h:581): `SetCount(size)`. -/
def SetSize [Inhabited α] (a : CUtlArray α) (size : Nat) : CUtlArray α :=
  SetCount a size

/-- The element-wise assignment loop of `CUtlArray::operator=`
(utlarray.h:270): `assignLoop dst src k` performs
`(*this)[i] = other[i]` for `i = 0 .. k-1` in ascending order. -/
def assignLoop [Inhabited α] (dst src : List α) : Nat → List α
  | 0 => dst
  | k + 1 => (assignLoop dst src k).set k (src.getD k default)

/-- Embedding of `CUtlArray::operator=` (utlarray.h:266):
`SetSize(other.Count())` followed by the element-wise copy loop. -/
def opAssign [Inhabited α] (a b : CUtlArray α) : CUtlArray α :=
  let a2 := SetSize a b.data.length
  { a2 with data := assignLoop a2.data b.data b.data.length }

/-- Embedding of `CUtlArray::Find` (utlarray.h:659): linear scan from index
0 returning the first `i` with `Element(i) == src`, else `-1`. -/
def Find [DecidableEq α] (a : CUtlArray α) (src : α) : Int :=
  match a.data.findIdx? (· == src) with
  | some i => (i : Int)
  | none => -1

/-- Embedding of `CUtlArray::FastRemove` (utlarray.h:680): destruct the
element at `elem`; then, under the source's `m_Size > 0` guard, `memcpy` the
last element's bytes into slot `elem` and decrement `m_Size`.  The byte
relocation is the `List.set` at `elem`, and the size decrement drops the now
dead last slot. -/
def FastRemove [Inhabited α] (a : CUtlArray α) (elem : Int) : CUtlArray α :=
  if a.data.length > 0 then
    { a with data := (a.data.set elem.toNat (a.data.getLast?.getD default)).dropLast }
  else a

/-- Embedding of `CUtlArray::Remove` (utlarray.h:693): destruct the element
at `elem`, `ShiftElementsLeft(elem)` (bulk byte move of the `m_Size - elem
- 1` trailing elements down one slot), decrement `m_Size` — jointly the
list splice `eraseIdx`. -/
def Remove (a : CUtlArray α) (elem : Int) : CUtlArray α :=
  { a with data := a.data.eraseIdx elem.toNat }

/-- Embedding of `CUtlArray::FindAndRemove` (utlarray.h:701): `Find(src)`;
if the result is not `-1`, `Remove` it and return `true`, else return
`false`. -/
def FindAndRemove [DecidableEq α] (a : CUtlArray α) (src : α) : CUtlArray α × Bool :=
  let elem := Find a src
  if elem ≠ -1 then (Remove a elem, true) else (a, false)

/-- Embedding of `CUtlArray::RemoveMultiple` (utlarray.h:713): destruct
elements `[elem, elem+num)` (the loop body runs only when `num > 0`),
`ShiftElementsLeft(elem, num)` (which moves bytes only when its
`numToMove > 0 && num > 0` test passes), then execute `m_Size -= num`
unconditionally.  For `num > 0` this keeps the prefix below `elem` and the
suffix from `elem + num` on.  For `num ≤ 0` neither loop body runs and the
size *increases* by `-num`: `m_Size` then counts `-num` slots of
uninitialized storage past the old tail; the embedding marks those slots
with `default` as a placeholder, since the program never defines their
contents. -/
def RemoveMultiple [Inhabited α] (a : CUtlArray α) (elem num : Int) : CUtlArray α :=
  if 0 < num then
    { a with data := a.data.take elem.toNat ++ a.data.drop (elem.toNat + num.toNat) }
  else
    { a with data := a.data ++ List.replicate (-num).toNat default }

/-- Modelled from the spec for the storage release: `CUtlMemory::Purge`
(utlmemory.h is absent from the repository snapshot) releases the block
entirely, returning capacity to its zero state.  The array-side
`CUtlArray::Purge` (utlarray.h:742) is `RemoveAll()` followed by
`m_Memory.Purge()`. -/
def Purge (a : CUtlArray α) : CUtlArray α :=
  { RemoveAll a with numAllocated := 0 }

/-- The assertion guarding `CUtlArray::ShiftElementsLeft` (utlarray.h:458):
`IsValidIndex(elem) || (m_Size == 0) || (num == 0)`. -/
def ShiftElementsLeftAssert (a : CUtlArray α) (elem num : Int) : Bool :=
  IsValidIndex a elem || decide (Count a = 0) || decide (num = 0)

/-- The assertion-style checks executed during `CUtlArray::Remove`
(utlarray.h:693): the body itself asserts nothing; the only check is the
one inside its `ShiftElementsLeft(elem)` call (with `num = 1`), and it runs
after `Destruct(&Element(elem))`. -/
def RemoveAsserts (a : CUtlArray α) (elem : Int) : Bool :=
  ShiftElementsLeftAssert a elem 1

/-- The assertion-style checks at the head of `CUtlArray::RemoveMultiple`
(utlarray.h:715): `assert(elem >= 0); assert(elem + num <= Count());`. -/
def RemoveMultipleAsserts (a : CUtlArray α) (elem num : Int) : Bool :=
  decide (0 ≤ elem) && decide (elem + num ≤ Count a)

/-- One conditional exchange of the quadratic fallback in `CUtlArray::Sort`
(utlarray.h:412): `if (pfnCompare(&Element(j-1), &Element(j)) < 0)
swap(Element(j-1), Element(j))`. -/
def sortSwapAt [Inhabited α] (cmp : α → α → Int) (l : List α) (j : Nat) : List α :=
  if cmp (l.getD (j - 1) default) (l.getD j default) < 0 then
    (l.set (j - 1) (l.getD j default)).set j (l.getD (j - 1) default)
  else l

/-- Inner loop of the fallback in `CUtlArray::Sort` (utlarray.h:410):
`sortInner cmp l j s` runs the conditional exchange for `s` successive
values of `j`; the source invokes it as `j = 1 .. i`. -/
def sortInner [Inhabited α] (cmp : α → α → Int) : List α → Nat → Nat → List α
  | l, _, 0 => l
  | l, j, s + 1 => sortInner cmp (sortSwapAt cmp l j) (j + 1) s

/-- Outer loop of the fallback in `CUtlArray::Sort` (utlarray.h:408):
`sortOuter cmp l n` runs the inner loop for `i = n-1, n-2, ..., 0` (the
source's `for (int i = m_Size - 1; i >= 0; --i)`). -/
def sortOuter [Inhabited α] (cmp : α → α → Int) : List α → Nat → List α
  | l, 0 => l
  | l, i + 1 => sortOuter cmp (sortInner cmp l 1 i) i

/-- Embedding of `CUtlArray::Sort` (utlarray.h:390) on the `Base() == NULL`
path (non-contiguous storage): after the `Count() <= 1` early return, the
bubble-exchange fallback runs over logical indices. -/
def SortNoBase [Inhabited α] (cmp : α → α → Int) (a : CUtlArray α) : CUtlArray α :=
  if a.data.length ≤ 1 then a
  else { a with data := sortOuter cmp a.data a.data.length }

/-- A sequence of single-element `InsertBefore` calls, accumulating whether
any of them triggered the storage policy's `Grow` (the
allocation-observable growth event). -/
def insertSeq (a : CUtlArray α) (ops : List (Int × α)) : CUtlArray α × Bool :=
  ops.foldl
    (fun acc p =>
      let r := InsertBeforeEv acc.1 p.1 p.2
      (r.1, acc.2 || r.2))
    (a, false)

/-- The representation invariant of the spec's data model (§3): the live
element count never exceeds the allocated capacity (the live-elements-
exactly-at-`[0, size)` part is structural in this embedding: `data` holds
exactly the live elements). -/
abbrev Inv (a : CUtlArray α) : Prop :=
  a.data.length ≤ a.numAllocated

theorem memGrow_ge (g cap req : Nat) : cap + req ≤ memGrow g cap req := by
  unfold memGrow
  split
  · exact Nat.le_max_left _ _
  · next hg =>
    have hg0 : 0 < g := Nat.pos_of_ne_zero hg
    have h1 := Nat.div_add_mod (req + g - 1) g
    have h2 : (req + g - 1) % g < g := Nat.mod_lt _ hg0
    omega

theorem GrowVector_capacity (a : CUtlArray α) (num : Nat) :
    a.data.length + num ≤ ((GrowVector a num).1).numAllocated := by
  unfold GrowVector
  split
  · next h =>
    have h2 := memGrow_ge a.growSize a.numAllocated (a.data.length + num - a.numAllocated)
    simp only
    omega
  · next h => simp only; omega

theorem GrowVector_data (a : CUtlArray α) (num : Nat) :
    ((GrowVector a num).1).data = a.data := by
  unfold GrowVector
  split <;> rfl

theorem GrowVector_of_le (a : CUtlArray α) (num : Nat)
    (h : a.data.length + num ≤ a.numAllocated) : GrowVector a num = (a, false) := by
  unfold GrowVector
  rw [if_neg]
  omega

theorem fastRemove_data [Inhabited α] (a : CUtlArray α) (i : Int)
    (h : 0 < a.data.length) :
    (FastRemove a i).data =
      (a.data.set i.toNat (a.data.getLast?.getD default)).dropLast := by
  unfold FastRemove
  rw [if_pos h]

theorem insertBefore_data (a : CUtlArray α) (i : Int) (v : α) :
    (InsertBefore a i v).1.data = a.data.insertIdx i.toNat v := by
  simp only [InsertBefore, InsertBeforeEv]
  rw [GrowVector_data]

theorem insertBefore_cap (a : CUtlArray α) (i : Int) (v : α) :
    a.data.length + 1 ≤ (InsertBefore a i v).1.numAllocated := by
  simp only [InsertBefore, InsertBeforeEv]
  exact GrowVector_capacity a 1

/-- C2: for a valid index `i`, `FastRemove(i)` decrements the size by
exactly one; if `i` was not the last index, slot `i` afterwards holds the
value previously at the last index, and every other surviving index is
unchanged.  The final conjunct exhibits the loss of relative order on a
concrete input: removing index 0 from `[1, 2, 3]` yields `[3, 2]`, in which
the surviving elements 2 and 3 appear in reversed relative order. -/
theorem fastRemove_spec :
    (∀ (β : Type) [Inhabited β] (a : CUtlArray β) (i : Int), 0 ≤ i → i < Count a →
      Count (FastRemove a i) = Count a - 1 ∧
      (i < Count a - 1 → (FastRemove a i).data[i.toNat]? = a.data.getLast?) ∧
      (∀ j : Nat, (j : Int) < Count a - 1 → j ≠ i.toNat →
        (FastRemove a i).data[j]? = a.data[j]?)) ∧
    (FastRemove (⟨[1, 2, 3], 0, 3⟩ : CUtlArray Int) 0).data = [3, 2] := by
  constructor
  · intro β _ a i hi hiC
    have hlen : 0 < a.data.length := by unfold Count at hiC; omega
    have hitn : i.toNat < a.data.length := by unfold Count at hiC; omega
    rw [show FastRemove a i = FastRemove a i from rfl]
    refine ⟨?_, ?_, ?_⟩
    · unfold Count
      rw [fastRemove_data a i hlen]
      rw [List.length_dropLast, List.length_set]
      omega
    · intro hlt
      have hit : i.toNat < a.data.length - 1 := by unfold Count at hlt; omega
      rw [fastRemove_data a i hlen]
      rw [List.getElem?_dropLast, List.length_set, if_pos hit, List.getElem?_set,
        if_pos rfl, if_pos hitn, List.getLast?_eq_getElem?,
        List.getElem?_eq_getElem (show a.data.length - 1 < a.data.length by omega)]
      simp
    · intro j hj hne
      have hjn : j < a.data.length - 1 := by unfold Count at hj; omega
      rw [fastRemove_data a i hlen]
      rw [List.getElem?_dropLast, List.length_set, if_pos hjn, List.getElem?_set,
        if_neg (by omega : ¬ i.toNat = j)]
  · decide

/-- C2 witness: instance of `fastRemove_spec` at the array `[4, 5, 6]` and
index 0. -/
theorem fastRemove_spec_witness :
    Count (FastRemove (⟨[4, 5, 6], 0, 3⟩ : CUtlArray Int) 0) =
      Count (⟨[4, 5, 6], 0, 3⟩ : CUtlArray Int) - 1 ∧
    (FastRemove (⟨[4, 5, 6], 0, 3⟩ : CUtlArray Int) 0).data[(0 : Int).toNat]? =
      ([4, 5, 6] : List Int).getLast? :=
  have h := fastRemove_spec.1 Int (⟨[4, 5, 6], 0, 3⟩ : CUtlArray Int) 0
    (by decide) (by decide)
  ⟨h.1, h.2.1 (by decide)⟩

/-- C3: for `0 ≤ i ≤ size`, `InsertBefore(i, value)` reserves capacity for
one more element, right-shifts all elements at index ≥ `i` by one slot,
places `value` in the vacated slot, increments the size to `s + 1`, and
returns `i`; concretely, from `[5, 7, 3]`, `InsertBefore(1, 9)` yields
`[5, 9, 7, 3]` with `Count() == 4`. -/
theorem insertBefore_spec :
    (∀ (β : Type) (a : CUtlArray β) (i : Int) (v : β), 0 ≤ i → i ≤ Count a →
      Count (InsertBefore a i v).1 = Count a + 1 ∧
      (InsertBefore a i v).2 = i ∧
      (InsertBefore a i v).1.data[i.toNat]? = some v ∧
      (∀ j : Nat, (j : Int) < i → (InsertBefore a i v).1.data[j]? = a.data[j]?) ∧
      (∀ j : Nat, i < (j : Int) → (j : Int) ≤ Count a →
        (InsertBefore a i v).1.data[j]? = a.data[j - 1]?) ∧
      Count a + 1 ≤ ((InsertBefore a i v).1).numAllocated) ∧
    (InsertBefore (⟨[5, 7, 3], 0, 3⟩ : CUtlArray Int) 1 9).1.data = [5, 9, 7, 3] ∧
    Count (InsertBefore (⟨[5, 7, 3], 0, 3⟩ : CUtlArray Int) 1 9).1 = 4 := by
  refine ⟨?_, by decide, by decide⟩
  intro β a i v hi hle
  have hin : i.toNat ≤ a.data.length := by unfold Count at hle; omega
  have hlen : (a.data.insertIdx i.toNat v).length = a.data.length + 1 :=
    List.length_insertIdx _ _ hin
  refine ⟨?_, rfl, ?_, ?_, ?_, ?_⟩
  · unfold Count
    rw [insertBefore_data, hlen]
    omega
  · rw [insertBefore_data,
      List.getElem?_eq_getElem (show i.toNat < (a.data.insertIdx i.toNat v).length by omega),
      List.getElem_insertIdx_self a.data v i.toNat hin]
  · intro j hj
    have hjle : j < i.toNat := by omega
    rw [insertBefore_data,
      List.getElem?_eq_getElem (show j < (a.data.insertIdx i.toNat v).length by omega),
      List.getElem_insertIdx_of_lt a.data v i.toNat j hjle (by omega),
      List.getElem?_eq_getElem (show j < a.data.length by omega)]
  · intro j hjgt hjle
    have hj : j ≤ a.data.length := by unfold Count at hjle; omega
    have hj2 : i.toNat + (j - i.toNat - 1) < a.data.length := by omega
    have hj3 : j = i.toNat + (j - i.toNat - 1) + 1 := by omega
    rw [insertBefore_data, hj3,
      List.getElem?_eq_getElem
        (show i.toNat + (j - i.toNat - 1) + 1 < (a.data.insertIdx i.toNat v).length by omega),
      List.getElem_insertIdx_add_succ a.data v i.toNat (j - i.toNat - 1) hj2,
      show i.toNat + (j - i.toNat - 1) + 1 - 1 = i.toNat + (j - i.toNat - 1) from by omega,
      List.getElem?_eq_getElem hj2]
  · have := insertBefore_cap a i v
    unfold Count
    omega

/-- C3 witness: instance of `insertBefore_spec` at the concrete scenario
from the spec, `InsertBefore(1, 9)` on `[5, 7, 3]`. -/
theorem insertBefore_spec_witness :
    Count (InsertBefore (⟨[5, 7, 3], 0, 3⟩ : CUtlArray Int) 1 9).1 =
      Count (⟨[5, 7, 3], 0, 3⟩ : CUtlArray Int) + 1 ∧
    (InsertBefore (⟨[5, 7, 3], 0, 3⟩ : CUtlArray Int) 1 9).2 = 1 :=
  have h := insertBefore_spec.1 Int (⟨[5, 7, 3], 0, 3⟩ : CUtlArray Int) 1 9
    (by decide) (by decide)
  ⟨h.1, h.2.1⟩

theorem find_eq_neg_one [DecidableEq α] (a : CUtlArray α) (v : α)
    (h : v ∉ a.data) : Find a v = -1 := by
  unfold Find
  have hnone : a.data.findIdx? (· == v) = none := by
    rw [List.findIdx?_eq_none_iff]
    intro x hx
    simp only [beq_eq_false_iff_ne, ne_eq]
    exact fun he => h (he ▸ hx)
  rw [hnone]

theorem find_mem [DecidableEq α] (a : CUtlArray α) (v : α) (h : v ∈ a.data) :
    ∃ i : Nat, a.data.findIdx? (· == v) = some i ∧ i < a.data.length ∧
      Find a v = (i : Int) ∧ a.data.eraseIdx i = a.data.erase v := by
  have hsome : (a.data.findIdx? (· == v)).isSome := by
    rw [List.findIdx?_isSome]
    exact List.any_eq_true.mpr ⟨v, h, by simp⟩
  obtain ⟨i, hi⟩ := Option.isSome_iff_exists.mp hsome
  obtain ⟨hlt, hfi⟩ := List.findIdx?_eq_some_iff_findIdx_eq.mp hi
  refine ⟨i, hi, hlt, ?_, ?_⟩
  · unfold Find
    rw [hi]
  · rw [← hfi]
    exact List.eraseIdx_indexOf_eq_erase v a.data

/-- C5: `FindAndRemove(value)` searches for the first element equal to
`value`; if one exists it removes exactly that element — the result is the
first-occurrence erasure, a sublist of the original (relative order of all
others preserved) with the size decremented — and reports success; if no
element equals `value` it reports failure and the array is completely
unchanged. -/
theorem findAndRemove_spec :
    ∀ (β : Type) [DecidableEq β] (a : CUtlArray β) (v : β),
      (v ∉ a.data → FindAndRemove a v = (a, false)) ∧
      (v ∈ a.data →
        (FindAndRemove a v).2 = true ∧
        (FindAndRemove a v).1.data = a.data.erase v ∧
        (FindAndRemove a v).1.data.Sublist a.data ∧
        Count (FindAndRemove a v).1 = Count a - 1) := by
  intro β _ a v
  constructor
  · intro h
    unfold FindAndRemove
    rw [find_eq_neg_one a v h]
    simp
  · intro h
    obtain ⟨i, hfi, hlt, hfind, herase⟩ := find_mem a v h
    have hne : Find a v ≠ -1 := by rw [hfind]; omega
    have hdata : (Remove a (Find a v)).data = a.data.erase v := by
      unfold Remove
      rw [hfind, show ((i : Int)).toNat = i from by omega]
      exact herase
    unfold FindAndRemove
    rw [if_pos hne]
    refine ⟨rfl, hdata, ?_, ?_⟩
    · rw [hdata, ← herase]
      exact List.eraseIdx_sublist a.data i
    · unfold Count
      rw [hdata, ← herase, List.length_eraseIdx, if_pos hlt]
      omega

/-- C5 witness: instances of `findAndRemove_spec`: a failed search on
`[4, 5]` leaves the array untouched, and a successful search on `[4, 5, 4]`
erases only the first occurrence. -/
theorem findAndRemove_spec_witness :
    FindAndRemove (⟨[4, 5], 0, 2⟩ : CUtlArray Int) 7 = (⟨[4, 5], 0, 2⟩, false) ∧
    (FindAndRemove (⟨[4, 5, 4], 0, 3⟩ : CUtlArray Int) 4).1.data =
      ([4, 5, 4] : List Int).erase 4 :=
  ⟨(findAndRemove_spec Int (⟨[4, 5], 0, 2⟩ : CUtlArray Int) 7).1 (by decide),
   ((findAndRemove_spec Int (⟨[4, 5, 4], 0, 3⟩ : CUtlArray Int) 4).2 (by decide)).2.1⟩

theorem assignLoop_length [Inhabited α] (dst src : List α) (k : Nat) :
    (assignLoop dst src k).length = dst.length := by
  induction k with
  | zero => rfl
  | succ k ih => simp [assignLoop, List.length_set, ih]

theorem assignLoop_getElem? [Inhabited α] (dst src : List α) (k : Nat)
    (hk : k ≤ src.length) (n : Nat) :
    (assignLoop dst src k)[n]? =
      if n < k ∧ n < dst.length then src[n]? else dst[n]? := by
  induction k with
  | zero => simp [assignLoop]
  | succ k ih =>
    rw [assignLoop, List.getElem?_set, assignLoop_length]
    by_cases hkn : k = n
    · subst hkn
      rw [if_pos rfl]
      by_cases hd : k < dst.length
      · rw [if_pos hd, if_pos ⟨by omega, hd⟩, List.getD_eq_getElem?_getD,
          List.getElem?_eq_getElem (show k < src.length by omega)]
        simp
      · rw [if_neg hd, if_neg (by omega)]
        rw [List.getElem?_eq_none]
        omega
    · rw [if_neg hkn, ih (by omega)]
      by_cases h1 : n < k ∧ n < dst.length
      · rw [if_pos h1, if_pos ⟨by omega, h1.2⟩]
      · rw [if_neg h1, if_neg (by omega)]

theorem setSize_data [Inhabited α] (a : CUtlArray α) (n : Nat) :
    (SetSize a n).data = List.replicate n default := by
  unfold SetSize SetCount AddMultipleToTail InsertMultipleBefore RemoveAll Count
  by_cases hn : n = 0
  · subst hn
    simp
  · rw [if_neg hn]
    simp only
    rw [GrowVector_data]
    simp

theorem setSize_inv [Inhabited α] (a : CUtlArray α) (n : Nat) :
    Inv (SetSize a n) := by
  unfold Inv
  rw [setSize_data, List.length_replicate]
  unfold SetSize SetCount AddMultipleToTail InsertMultipleBefore RemoveAll Count
  by_cases hn : n = 0
  · subst hn
    exact Nat.zero_le _
  · rw [if_neg hn]
    simp only
    have h := GrowVector_capacity ({ a with data := ([] : List α) }) n
    simpa using h

theorem setSize_numAllocated [Inhabited α] (a : CUtlArray α) (n : Nat) :
    n ≤ (SetSize a n).numAllocated ∨ n = 0 := by
  by_cases hn : n = 0
  · exact Or.inr hn
  · left
    have h := setSize_inv a n
    unfold Inv at h
    rwa [setSize_data, List.length_replicate] at h

theorem opAssign_data [Inhabited α] (a b : CUtlArray α) :
    (opAssign a b).data = b.data := by
  unfold opAssign
  simp only
  rw [setSize_data]
  apply List.ext_getElem?
  intro m
  rw [assignLoop_getElem? _ _ _ (le_refl b.data.length), List.length_replicate]
  by_cases hm : m < b.data.length
  · rw [if_pos ⟨hm, hm⟩]
  · rw [if_neg (by omega), List.getElem?_eq_none (by simp; omega),
      List.getElem?_eq_none (by omega)]

/-- C9: the deep-copy assignment `operator=` resets the target to exactly
the source's element count and copies each element index by index, so the
target's logical sequence afterwards equals the source's (the source
operand is taken by const reference and never written). -/
theorem opAssign_spec :
    ∀ (β : Type) [Inhabited β] (a b : CUtlArray β),
      (opAssign a b).data = b.data ∧ Count (opAssign a b) = Count b := by
  intro β _ a b
  refine ⟨opAssign_data a b, ?_⟩
  unfold Count
  rw [opAssign_data]

/-- C6 counterexample: the claim that every public operation preserves the
`size ≤ capacity` invariant is false on the code: on the empty
zero-capacity array, `RemoveMultiple(0, -1)` — which passes both of the
operation's own debug assertions, see `RemoveMultipleAsserts` — runs no
destruct and no byte move but still executes `m_Size -= num`, leaving
`m_Size = 1` above the allocated capacity 0.  A public operation thus maps
an invariant-satisfying state to an invariant-violating one in a fully
defined execution. -/
theorem removeMultiple_negative_num_breaks_invariant :
    Inv (⟨[], 0, 0⟩ : CUtlArray Int) ∧
    RemoveMultipleAsserts (⟨[], 0, 0⟩ : CUtlArray Int) 0 (-1) = true ∧
    ¬ Inv (RemoveMultiple (⟨[], 0, 0⟩ : CUtlArray Int) 0 (-1)) := by
  decide

/-- C6 (amended): every public operation invoked within its documented
contract — insertion position `0 ≤ i ≤ size` for the inserts, a valid index
for `Remove`/`FastRemove`, and `0 ≤ i`, `0 ≤ num`, `i + num ≤ size` for
`RemoveMultiple` — applied to an array satisfying `size ≤ allocated
capacity` (live constructed elements exactly at `[0, size)` is structural
in this embedding) leaves the array again satisfying that invariant:
`GrowVector` grows the storage before the size increase, and in-contract
removals shrink `data` while leaving the allocation untouched.  Outside the
contract the invariant can break even though the code's own assertions
pass, as `removeMultiple_negative_num_breaks_invariant` shows. -/
theorem public_ops_preserve_invariant :
    ∀ (β : Type) [Inhabited β] [DecidableEq β] (a b : CUtlArray β)
      (i j k num : Int) (n : Nat) (v : β) (src : Option (List β)),
      Inv a →
      (0 ≤ i → i ≤ Count a →
        Inv (InsertBefore a i v).1 ∧ Inv (InsertMultipleBefore a i n src)) ∧
      (0 ≤ j → j < Count a → Inv (Remove a j) ∧ Inv (FastRemove a j)) ∧
      (0 ≤ k → 0 ≤ num → k + num ≤ Count a → Inv (RemoveMultiple a k num)) ∧
      Inv (RemoveAll a) ∧
      Inv (Purge a) ∧
      Inv (EnsureCapacity a n) ∧
      Inv (SetSize a n) ∧
      Inv (FindAndRemove a v).1 ∧
      Inv (opAssign a b) := by
  intro β _ _ a b i j k num n v src ha
  refine ⟨?_, ?_, ?_, Nat.zero_le _, Nat.zero_le _, ?_, setSize_inv a n, ?_, ?_⟩
  · intro hi hile
    constructor
    · show (InsertBefore a i v).1.data.length ≤ (InsertBefore a i v).1.numAllocated
      rw [insertBefore_data]
      have h1 := List.length_insertIdx_le_succ a.data v i.toNat
      have h2 := insertBefore_cap a i v
      omega
    · show (InsertMultipleBefore a i n src).data.length ≤
        (InsertMultipleBefore a i n src).numAllocated
      unfold InsertMultipleBefore
      by_cases hn : n = 0
      · subst hn
        simpa using ha
      · rw [if_neg hn]
        have hc := GrowVector_capacity a n
        cases src with
        | none =>
          simp only [List.length_append, List.length_take, List.length_drop,
            List.length_replicate, GrowVector_data]
          omega
        | some s =>
          simp only [List.length_append, List.length_take, List.length_drop,
            List.length_map, List.length_range, GrowVector_data]
          omega
  · intro hj hjlt
    constructor
    · show (Remove a j).data.length ≤ (Remove a j).numAllocated
      unfold Remove
      simp only [List.length_eraseIdx]
      split_ifs <;> omega
    · show (FastRemove a j).data.length ≤ (FastRemove a j).numAllocated
      unfold FastRemove
      split_ifs with h
      · simp only [List.length_dropLast, List.length_set]
        omega
      · exact ha
  · intro hk hnum hsum
    show (RemoveMultiple a k num).data.length ≤ (RemoveMultiple a k num).numAllocated
    unfold RemoveMultiple
    split_ifs with h
    · simp only [List.length_append, List.length_take, List.length_drop]
      omega
    · have h0 : num = 0 := by omega
      subst h0
      simpa using ha
  · show (EnsureCapacity a n).data.length ≤ (EnsureCapacity a n).numAllocated
    unfold EnsureCapacity memEnsureCapacity
    simp only
    omega
  · show (FindAndRemove a v).1.data.length ≤ (FindAndRemove a v).1.numAllocated
    unfold FindAndRemove
    dsimp only
    split_ifs with h
    · unfold Remove
      simp only [List.length_eraseIdx]
      split_ifs <;> omega
    · exact ha
  · show (opAssign a b).data.length ≤ (opAssign a b).numAllocated
    have h := setSize_inv a b.data.length
    unfold Inv at h
    rw [setSize_data, List.length_replicate] at h
    rw [opAssign_data]
    have hcap : (opAssign a b).numAllocated = (SetSize a b.data.length).numAllocated := rfl
    rw [hcap]
    exact h

/-- C6 witness: instance of `public_ops_preserve_invariant` at the
one-element array `[3]` with capacity 1, with every in-contract hypothesis
discharged concretely (`Remove(0)`, `RemoveMultiple(0, 1)`, `Purge()`). -/
theorem public_ops_preserve_invariant_witness :
    Inv (Remove (⟨[3], 0, 1⟩ : CUtlArray Int) 0) ∧
    Inv (RemoveMultiple (⟨[3], 0, 1⟩ : CUtlArray Int) 0 1) ∧
    Inv (Purge (⟨[3], 0, 1⟩ : CUtlArray Int)) :=
  have h := public_ops_preserve_invariant Int (⟨[3], 0, 1⟩ : CUtlArray Int)
    (⟨[], 0, 0⟩ : CUtlArray Int) 0 0 0 1 0 3 none (by decide)
  ⟨(h.2.1 (by decide) (by decide)).1,
   h.2.2.1 (by decide) (by decide) (by decide),
   h.2.2.2.2.1⟩

theorem insertSeq_no_grow {β : Type} :
    ∀ (ops : List (Int × β)) (a : CUtlArray β),
      a.data.length + ops.length ≤ a.numAllocated →
      (insertSeq a ops).2 = false := by
  intro ops
  induction ops with
  | nil => intro a _; rfl
  | cons p rest ih =>
    intro a h
    have hng : GrowVector a 1 = (a, false) :=
      GrowVector_of_le a 1 (by simp only [List.length_cons] at h; omega)
    have hstep : insertSeq a (p :: rest) =
        insertSeq ({ a with data := a.data.insertIdx p.1.toNat p.2 }) rest := by
      unfold insertSeq
      rw [List.foldl_cons]
      simp only [InsertBeforeEv, hng, Bool.false_or]
    rw [hstep]
    apply ih
    simp only
    have hlen := List.length_insertIdx_le_succ a.data p.2 p.1.toNat
    simp only [List.length_cons] at h
    omega

/-- C7: `EnsureCapacity(n)` leaves the element sequence unchanged and
guarantees allocated capacity ≥ n; afterwards, any sequence of single-
element inserts that never pushes the total element count past `n` triggers
no allocation-observable growth event (the storage policy's `Grow` is never
invoked). -/
theorem ensureCapacity_spec :
    ∀ (β : Type) (a : CUtlArray β) (n : Nat) (ops : List (Int × β)),
      (EnsureCapacity a n).data = a.data ∧
      n ≤ (EnsureCapacity a n).numAllocated ∧
      (a.data.length + ops.length ≤ n →
        (insertSeq (EnsureCapacity a n) ops).2 = false) := by
  intro β a n ops
  refine ⟨rfl, Nat.le_max_right _ _, ?_⟩
  intro h
  apply insertSeq_no_grow
  show a.data.length + ops.length ≤ max a.numAllocated n
  omega

/-- C7 witness: instance of `ensureCapacity_spec`: after reserving capacity
2 on an empty array, two appends trigger no growth event. -/
theorem ensureCapacity_spec_witness :
    (insertSeq (EnsureCapacity (⟨[], 0, 0⟩ : CUtlArray Int) 2) [(0, 5), (1, 7)]).2 =
      false :=
  (ensureCapacity_spec Int (⟨[], 0, 0⟩ : CUtlArray Int) 2 [(0, 5), (1, 7)]).2.2
    (by decide)

/-- C8: `Purge()` is idempotent: calling it twice in a row produces the same
state as calling it once — size 0 and all storage released (allocation count
0) — so the second call changes nothing. -/
theorem purge_idempotent (a : CUtlArray α) :
    Purge (Purge a) = Purge a ∧ (Purge a).data = [] ∧ (Purge a).numAllocated = 0 :=
  ⟨rfl, rfl, rfl⟩

/-- C1: evaluation of the quadratic fallback of `Sort` at a concrete input.
With the ascending comparator `fun a b => a - b` (negative when the first
argument should precede the second, the order `qsort` on the contiguous path
produces), the fallback turns `[1, 2]` into `[2, 1]`: it swaps exactly when
`pfnCompare(&Element(j-1), &Element(j)) < 0`, i.e. when the pair is already
in comparator order, so it sorts into the REVERSE of the comparator-defined
order, contradicting the claim that the fallback produces the same
comparator-defined order. -/
theorem sort_fallback_reverses_comparator_order :
    SortNoBase (fun a b => a - b) (⟨[1, 2], 0, 2⟩ : CUtlArray Int) =
      (⟨[2, 1], 0, 2⟩ : CUtlArray Int) := by
  decide

/-- C4 counterexample: the claim that `RemoveMultiple(i, num)` checks
`0 ≤ num` by assertion, and that `Remove(i)` checks that `i` is a valid
index, is false at concrete inputs: on an empty array the `RemoveMultiple`
assertions `elem >= 0 && elem + num <= Count()` pass with `num = -1`, and
the only check `Remove` performs (the one inside `ShiftElementsLeft`) passes
for the invalid index `5` because `m_Size == 0`. -/
theorem removeMultiple_assert_allows_negative_num :
    RemoveMultipleAsserts (⟨[], 0, 0⟩ : CUtlArray Int) 0 (-1) = true ∧
    ¬ ((0 : Int) ≤ (-1 : Int)) ∧
    RemoveAsserts (⟨[], 0, 0⟩ : CUtlArray Int) 5 = true ∧
    IsValidIndex (⟨[], 0, 0⟩ : CUtlArray Int) 5 = false := by
  decide

/-- C4 (amended): the assertions actually performed are:
`RemoveMultiple(i, num)` asserts `0 ≤ i` and `i + num ≤ size` (it never
checks `0 ≤ num`), and `Remove(i)` itself asserts nothing — its only check
is the one inside `ShiftElementsLeft`, which passes iff `i` is a valid index
or the array is empty, and runs only after the element at `i` has been
destructed. -/
theorem remove_assert_forms (a : CUtlArray α) (elem num : Int) :
    (RemoveMultipleAsserts a elem num = true ↔ 0 ≤ elem ∧ elem + num ≤ Count a) ∧
    (RemoveAsserts a elem = true ↔ (0 ≤ elem ∧ elem < Count a) ∨ Count a = 0) := by
  unfold RemoveMultipleAsserts RemoveAsserts ShiftElementsLeftAssert IsValidIndex
  constructor
  · simp
  · simp

/-- C10: on a non-empty array of size `s`, `FastRemove(s-1)` produces
exactly the state `Remove(s-1)` produces: the unconditional byte relocation
of the last element into the removed slot is observationally a no-op when
the removed index is the last one. -/
theorem fastRemove_last_eq_remove_last [Inhabited α] (a : CUtlArray α)
    (h : a.data ≠ []) :
    FastRemove a (Count a - 1) = Remove a (Count a - 1) := by
  have hlen : 0 < a.data.length := List.length_pos.mpr h
  have htn : ((Count a : Int) - 1).toNat = a.data.length - 1 := by
    unfold Count; omega
  unfold FastRemove Remove
  rw [if_pos hlen]
  simp only [CUtlArray.mk.injEq, and_true, true_and, htn]
  apply List.ext_getElem?
  intro n
  rw [List.getLast?_eq_getElem?]
  simp only [List.getElem?_dropLast, List.length_set, List.eraseIdx_eq_take_drop_succ,
    List.getElem?_append, List.length_take, List.getElem?_take, List.getElem?_drop,
    List.getElem?_set]
  split_ifs with h1 h2 h3 h4 h5 h6 h7 <;>
    first
      | rfl
      | omega
      | (exfalso; omega)
      | (rw [List.getElem?_eq_none]; omega)

/-- C10 witness: concrete instance of `fastRemove_last_eq_remove_last` on
the four-element array `[5, 9, 7, 3]`. -/
theorem fastRemove_last_eq_remove_last_witness :
    FastRemove (⟨[5, 9, 7, 3], 0, 4⟩ : CUtlArray Int) (Count (⟨[5, 9, 7, 3], 0, 4⟩ : CUtlArray Int) - 1) =
      Remove (⟨[5, 9, 7, 3], 0, 4⟩ : CUtlArray Int) (Count (⟨[5, 9, 7, 3], 0, 4⟩ : CUtlArray Int) - 1) :=
  fastRemove_last_eq_remove_last (⟨[5, 9, 7, 3], 0, 4⟩ : CUtlArray Int) (by decide)

end UtlSpec
